import Mathlib

/-!
Verification of the crash-pattern engine: a shallow embedding of
`pattern_engine.py` (color matching, sequence matcher, dynamic expansion,
per-round streak updates) and of the relevant parts of `main.py`
(rule validation, streak-history emission, alert cooldowns),
with theorems checking the specification's claims.

Colors and rule fields are strings, as in the source. Dictionary fields
read with `.get(key, default)` are modelled as total fields holding the
default when the key is absent.
-/

namespace CrashApp

/-- A step's `count` value: either an integer or a (possibly symbolic) string. -/
inductive CountVal where
  | int (n : Int)
  | str (s : String)
deriving DecidableEq

/-- One matching step: `colors` group, `operator`, `count`
(defaults `[]`, `"minimum"`, `1` applied as in the `.get` calls). -/
structure Step where
  colors : List String
  operator : String
  count : CountVal
deriving DecidableEq

/-- `normalize_color` from `pattern_engine.py`. -/
def normalizeColor (color : String) (treatYellowAsGreen : Bool) : String :=
  if treatYellowAsGreen ∧ color = "yellow" then "green" else color

/-- `color_matches_group` from `pattern_engine.py`: membership of one
outcome color in a step's color group. -/
def colorMatchesGroup (color : String) (group : List String) (treatYellowAsGreen : Bool) : Bool :=
  let normalized := normalizeColor color treatYellowAsGreen
  group.any (fun g =>
    if g = "green_yellow" then
      decide (normalized = "green" ∨ normalized = "yellow" ∨ color = "green" ∨ color = "yellow")
    else
      decide (g = normalized ∨ g = color))

/-- Python whitespace characters stripped by `str.strip()` (ASCII range). -/
def isPyWhitespace (c : Char) : Bool :=
  c = ' ' ∨ c = '\t' ∨ c = '\n' ∨ c = '\r' ∨ c = '\x0b' ∨ c = '\x0c'

/-- `str.strip()` on a character list. -/
def trimChars (cs : List Char) : List Char :=
  ((cs.dropWhile isPyWhitespace).reverse.dropWhile isPyWhitespace).reverse

/-- Numeric value of a digit list (most significant first). -/
def digitsToNat (cs : List Char) : Nat :=
  cs.foldl (fun acc c => acc * 10 + (c.toNat - 48)) 0

/-- Digit run with single underscores allowed between digits,
as accepted inside `int(<string>)` in Python 3. -/
def parseDigitsU : List Char → Option Nat
  | [] => none
  | c :: cs =>
    if c.isDigit then parseDigitsUGo (c.toNat - 48) cs else none
where
  parseDigitsUGo (acc : Nat) : List Char → Option Nat
  | [] => some acc
  | '_' :: c :: cs =>
    if c.isDigit then parseDigitsUGo (acc * 10 + (c.toNat - 48)) cs else none
  | c :: cs =>
    if c.isDigit then parseDigitsUGo (acc * 10 + (c.toNat - 48)) cs else none

/-- Python `int(<string>)`: strip whitespace, optional single sign,
then digits (underscores between digits allowed); `none` models `ValueError`. -/
def pythonIntOfStr (s : String) : Option Int :=
  match trimChars s.data with
  | '+' :: rest => (parseDigitsU rest).map (fun n => (n : Int))
  | '-' :: rest => (parseDigitsU rest).map (fun n => -(n : Int))
  | cs => (parseDigitsU cs).map (fun n => (n : Int))

/-- The count parse performed at the top of each step in `match_sequence`:
`int(count_spec)` with `ValueError` on a malformed string mapped to `none`. -/
def parseCountSpec : CountVal → Option Int
  | .int n => some n
  | .str s => pythonIntOfStr s

/-- The greedy consumption loop of `match_sequence`: consume outcomes
(most recent first) while they belong to the step's color group;
returns the consumed count and the remaining buffer. -/
def consumeRun (group : List String) (tyag : Bool) : List String → Nat × List String
  | [] => (0, [])
  | c :: rest =>
    if colorMatchesGroup c group tyag then
      let p := consumeRun group tyag rest
      (p.1 + 1, p.2)
    else (0, c :: rest)

/-- The per-step operator check of `match_sequence`: `exact` means equal,
`minimum` means at least, `maximum` means at most; an unrecognized
operator imposes no constraint (the source has no else branch). -/
def opCheck (op : String) (matched : Nat) (count : Int) : Bool :=
  if op = "exact" then decide ((matched : Int) = count)
  else if op = "minimum" then decide (count ≤ (matched : Int))
  else if op = "maximum" then decide ((matched : Int) ≤ count)
  else true

/-- The main loop of `match_sequence` over the reversed step list and the
reversed buffer: cursor exhausted with steps remaining fails; a malformed
count fails; otherwise greedily consume then apply the operator check. -/
def matchSteps (tyag : Bool) : List Step → List String → Bool
  | [], _ => true
  | _ :: _, [] => false
  | step :: rest, c :: cs =>
    match parseCountSpec step.count with
    | none => false
    | some count =>
      let p := consumeRun step.colors tyag (c :: cs)
      opCheck step.operator p.1 count && matchSteps tyag rest p.2

/-- `match_sequence` from `pattern_engine.py`: empty buffer or empty step
list fail; otherwise the steps are processed in reverse against the
buffer tail (modelled by reversing both lists). -/
def matchSequence (colors : List String) (sequence : List Step) (tyag : Bool) : Bool :=
  if colors = [] ∨ sequence = [] then false
  else matchSteps tyag sequence.reverse colors.reverse

/-- Whether a character list contains the substring `$X`. -/
def containsDX : List Char → Bool
  | '$' :: 'X' :: _ => true
  | _ :: rest => containsDX rest
  | [] => false

/-- Replace every (non-overlapping, left-to-right) occurrence of `$X`
by `repl`, as Python `str.replace` does. -/
def replaceDX (repl : List Char) : List Char → List Char
  | '$' :: 'X' :: rest => repl ++ replaceDX repl rest
  | c :: rest => c :: replaceDX repl rest
  | [] => []

/-- The character whitelist of `_replace_x_expr`: digits, `+`, `-`, space. -/
def allowedExprChar (c : Char) : Bool :=
  c.isDigit ∨ c = '+' ∨ c = '-' ∨ c = ' '

/-- Character classes of the restricted expression (digits, `+`, `-`,
spaces); a space only separates tokens. -/
inductive CTok where
  | plus
  | minus
  | sep
  | digit (c : Char)
deriving DecidableEq

/-- Classify one character; `none` models an unrecognized character. -/
def ctokOf (c : Char) : Option CTok :=
  if c = ' ' then some .sep
  else if c = '+' then some .plus
  else if c = '-' then some .minus
  else if c.isDigit then some (.digit c)
  else none

/-- Classify every character of the expression. -/
def ctoksOf : List Char → Option (List CTok)
  | [] => some []
  | c :: cs =>
    match ctokOf c, ctoksOf cs with
    | some t, some ts => some (t :: ts)
    | _, _ => none

/-- A lexical run: an operator sign or a maximal run of adjacent digits. -/
inductive NTok where
  | plus
  | minus
  | num (ds : List Char)
deriving DecidableEq

/-- Extend the grouped form of `rest` with a digit character `c`: when
`rest` itself starts with a digit, `c` joins that (already grouped)
leading number run, otherwise `c` starts a fresh run. -/
def consNum (c : Char) : List CTok → List NTok → List NTok
  | .digit _ :: _, .num ds :: ts => .num (c :: ds) :: ts
  | _, ts => .num [c] :: ts

/-- Merge maximal runs of adjacent digit characters into number runs,
dropping the separating spaces (a space ends a digit run, exactly as
Python tokenization does). -/
def groupRuns : List CTok → List NTok
  | [] => []
  | .plus :: rest => .plus :: groupRuns rest
  | .minus :: rest => .minus :: groupRuns rest
  | .sep :: rest => groupRuns rest
  | .digit c :: rest => consNum c rest (groupRuns rest)

/-- Tokens of the restricted arithmetic evaluated by `_replace_x_expr`. -/
inductive Tok where
  | plus
  | minus
  | num (n : Nat)
deriving DecidableEq

/-- Python 3 decimal-literal rule: a digit run is a valid literal unless it
has a leading zero followed by a nonzero digit (`01` is a SyntaxError,
`0`/`00` are fine). -/
def validLit : List Char → Bool
  | [] => false
  | c :: cs => if c = '0' then cs.all (fun d => d = '0') else true

/-- Turn number runs into integer tokens, rejecting invalid literals. -/
def toksOfRuns : List NTok → Option (List Tok)
  | [] => some []
  | .plus :: rest => (toksOfRuns rest).map (fun ts => Tok.plus :: ts)
  | .minus :: rest => (toksOfRuns rest).map (fun ts => Tok.minus :: ts)
  | .num ds :: rest =>
    if validLit ds then (toksOfRuns rest).map (fun ts => Tok.num (digitsToNat ds) :: ts)
    else none

/-- Tokenizer for the restricted expression; `none` models a Python
SyntaxError. -/
def tokenize (cs : List Char) : Option (List Tok) :=
  match ctoksOf cs with
  | none => none
  | some cts => toksOfRuns (groupRuns cts)

/-- One-pass parser for `term ((+|-) term)*` where a term is any run of
unary signs applied to a number: `inTerm` tells whether a term is still
being read (signs pending, a number required) or whether an operator or
the end of input is expected; `acc` is the sum so far and `sign` the
product of the pending unary signs. -/
def parseGo : Bool → Int → Int → List Tok → Option Int
  | true, acc, sign, .plus :: ts => parseGo true acc sign ts
  | true, acc, sign, .minus :: ts => parseGo true acc (-sign) ts
  | true, acc, sign, .num n :: ts => parseGo false (acc + sign * n) 1 ts
  | true, _, _, [] => none
  | false, acc, _, [] => some acc
  | false, acc, _, .plus :: ts => parseGo true acc 1 ts
  | false, acc, _, .minus :: ts => parseGo true acc (-1) ts
  | false, _, _, .num _ :: _ => none

/-- Python `eval` restricted to digits, `+`, `-` and spaces:
sum of unary-signed decimal literals; `none` models a raised exception. -/
def pyEval (cs : List Char) : Option Int :=
  match tokenize cs with
  | none => none
  | some ts => parseGo true 0 1 ts

/-- `_replace_x_expr` from `pattern_engine.py`: substitute the bound value
for `$X`, then evaluate the result if it uses only whitelisted characters,
returning the original value whenever substitution or evaluation fails. -/
def replaceXExpr (v : CountVal) (x : Int) : CountVal :=
  match v with
  | .int n => .int n
  | .str s =>
    if ¬ containsDX s.data then .str s
    else
      let expr := trimChars (replaceDX (toString x).data s.data)
      if expr.all allowedExprChar then
        match pyEval expr with
        | some n => .int n
        | none => .str s
      else .str s

/-- A pattern rule (fields read with `.get` defaults modelled as totals;
`dynamic_values` keeps its two distinct call-site defaults via `Option`). -/
structure Rule where
  name : String
  type_ : String
  treat_yellow_as_green : Bool
  trigger : List Step
  miss : List Step
  dynamic_values : Option (List Int)
  dynamic_x : Option Int
  active : Bool
deriving DecidableEq

/-- Resolution of every step's count against the bound value `x`. -/
def resolveSteps (steps : List Step) (x : Int) : List Step :=
  steps.map (fun s => { s with count := replaceXExpr s.count x })

/-- `expand_dynamic_pattern` from `pattern_engine.py`. -/
def expandDynamicPattern (r : Rule) : List Rule :=
  if r.type_ ≠ "dynamic" then [r]
  else
    (r.dynamic_values.getD [3, 4, 5, 6, 7, 8]).map (fun x =>
      { r with
        name := r.name ++ " (X=" ++ toString x ++ ")"
        dynamic_x := some x
        trigger := resolveSteps r.trigger x
        miss := resolveSteps r.miss x })

/-- Result of `check_pattern`: whether the trigger and the miss step
lists each match the buffer. -/
structure CheckResult where
  trigger : Bool
  miss : Bool
deriving DecidableEq

/-- `check_pattern` from `pattern_engine.py`. -/
def checkPattern (colors : List String) (rule : Rule) : CheckResult :=
  { trigger := matchSequence colors rule.trigger rule.treat_yellow_as_green
    miss := matchSequence colors rule.miss rule.treat_yellow_as_green }

/-- Per-rule streak statistics (`pattern_stats` entries in
`pattern_engine.py`). -/
structure Stat where
  trigger_streak : Nat
  miss_streak : Nat
  total_triggers : Nat
  total_misses : Nat
  longest_trigger_streak : Nat
  longest_miss_streak : Nat
deriving DecidableEq

/-- The all-zero state a rule key starts from. -/
def zeroStat : Stat :=
  { trigger_streak := 0, miss_streak := 0, total_triggers := 0,
    total_misses := 0, longest_trigger_streak := 0, longest_miss_streak := 0 }

/-- The per-rule state update of `process_round`: the trigger branch, the
miss branch (only when the trigger did not match), or no change; the
second component is the emitted event kind and streak, if any. -/
def updateStat (check : CheckResult) (stat : Stat) : Stat × Option (String × Nat) :=
  if check.trigger then
    let s1 :=
      { stat with
        trigger_streak := stat.trigger_streak + 1
        miss_streak := 0
        total_triggers := stat.total_triggers + 1 }
    let s2 :=
      if s1.longest_trigger_streak < s1.trigger_streak then
        { s1 with longest_trigger_streak := s1.trigger_streak }
      else s1
    (s2, some ("trigger", s2.trigger_streak))
  else if check.miss then
    let s1 :=
      { stat with
        miss_streak := stat.miss_streak + 1
        trigger_streak := 0
        total_misses := stat.total_misses + 1 }
    let s2 :=
      if s1.longest_miss_streak < s1.miss_streak then
        { s1 with longest_miss_streak := s1.miss_streak }
      else s1
    (s2, some ("miss", s2.miss_streak))
  else (stat, none)

/-- One emitted match event of `process_round`. -/
structure MatchEvent where
  pattern_id : String
  event : String
  streak : Nat
  stats : Stat
deriving DecidableEq

/-- Association-list read, modelling `key in dict` / `dict[key]`. -/
def lookupOpt {α : Type} : List (String × α) → String → Option α
  | [], _ => none
  | (k1, v) :: rest, k => if k1 = k then some v else lookupOpt rest k

/-- Association-list read with a default, modelling `dict.get`. -/
def lookupD {α : Type} (l : List (String × α)) (k : String) (d : α) : α :=
  (lookupOpt l k).getD d

/-- Association-list write, modelling `dict[k] = v`: replace the first
binding of `k`, or append a fresh one. -/
def setAssoc {α : Type} : List (String × α) → String → α → List (String × α)
  | [], k, v => [(k, v)]
  | (k', v') :: rest, k, v =>
    if k' = k then (k, v) :: rest else (k', v') :: setAssoc rest k v

/-- `process_round` from `pattern_engine.py`: evaluate every active rule
against the buffer, update its stats entry in place, and collect the
emitted events in rule order. -/
def processRound (patterns : List (String × Rule)) (colors : List String)
    (stats : List (String × Stat)) : List (String × Stat) × List MatchEvent :=
  match patterns with
  | [] => (stats, [])
  | (pid, rule) :: rest =>
    if ¬ rule.active then processRound rest colors stats
    else
      let stat := lookupD stats pid zeroStat
      let p := updateStat (checkPattern colors rule) stat
      let events := match p.2 with
        | some ev => [⟨pid, ev.1, ev.2, p.1⟩]
        | none => []
      let next := processRound rest colors (setAssoc stats pid p.1)
      (next.1, events ++ next.2)

/-- A streak-history record as persisted by `save_streak_history`
(`main.py`); boundary markers and the sequence snapshot are persistence
plumbing and not modelled. -/
structure HistoryRecord where
  key : String
  streak_type : String
  streak_length : Nat
deriving DecidableEq

/-- `save_streak_history` from `main.py`, reduced to the emitted records:
streaks shorter than 2 are dropped. -/
def saveStreakHistory (key streakType : String) (streakLength : Nat) : List HistoryRecord :=
  if streakLength < 2 then [] else [⟨key, streakType, streakLength⟩]

/-- The history records one rule key contributes in `process_round_patterns`:
a kind's record is emitted when its pre-round streak was above 1 and the
post-round value is strictly smaller. -/
def keyRecords (prev : List (String × Stat)) (e : String × Stat) : List HistoryRecord :=
  let p := lookupD prev e.1 zeroStat
  (if p.trigger_streak > 1 ∧ e.2.trigger_streak < p.trigger_streak then
    saveStreakHistory e.1 "trigger" p.trigger_streak
  else []) ++
  (if p.miss_streak > 1 ∧ e.2.miss_streak < p.miss_streak then
    saveStreakHistory e.1 "miss" p.miss_streak
  else [])

/-- `process_round_patterns` from `main.py`, reduced to its engine-facing
core: snapshot the stats, run `process_round`, then compare every tracked
key's new state against the snapshot to emit streak-history records. -/
def processRoundPatterns (patterns : List (String × Rule)) (colors : List String)
    (stats : List (String × Stat)) :
    List (String × Stat) × List MatchEvent × List HistoryRecord :=
  let prev := stats
  let p := processRound patterns colors stats
  (p.1, p.2, p.1.flatMap (keyRecords prev))

/-- A raw step as found in stored rule JSON: `Option` marks absent keys
(validation applies the same `.get` defaults as matching does). -/
structure StepJson where
  colors : Option (List String)
  operator : Option String
  count : Option CountVal
deriving DecidableEq

/-- A raw rule as found in stored rule JSON, restricted to the keys
validation inspects. -/
structure RuleJson where
  type_ : Option String
  name : Option String
  trigger : List StepJson
  miss : List StepJson
  dynamic_values : Option (List Int)
deriving DecidableEq

/-- `_is_valid_count_expr` from `main.py`. -/
def isValidCountExpr : CountVal → Bool
  | .int n => decide (0 < n)
  | .str s =>
    let v := trimChars s.data
    if v ≠ [] ∧ v.all Char.isDigit then decide (0 < digitsToNat v)
    else
      match v with
      | '$' :: 'X' :: rest =>
        match rest with
        | [] => true
        | c :: rest' =>
          if c = '+' ∨ c = '-' then
            let r := trimChars rest'
            decide (r ≠ []) && r.all Char.isDigit
          else false
      | _ => false

/-- The step-list check of `_validate_rule_json` (`_validate_steps`),
returning the first error found. -/
def validateSteps (path : String) : List StepJson → Bool × Option String
  | [] => (true, none)
  | s :: rest =>
    let colors := s.colors.getD []
    if colors = [] then (false, some (path ++ ".steps colors required"))
    else if colors.any (fun c =>
        ¬ (c = "red" ∨ c = "green" ∨ c = "yellow" ∨ c = "green_yellow")) then
      (false, some (path ++ ".steps contains invalid colors"))
    else if ¬ (s.operator.getD "minimum" = "exact" ∨ s.operator.getD "minimum" = "minimum"
        ∨ s.operator.getD "minimum" = "maximum") then
      (false, some (path ++ ".steps contains invalid operator"))
    else if ¬ isValidCountExpr (s.count.getD (.int 1)) then
      (false, some (path ++ ".steps contains invalid count"))
    else validateSteps path rest

/-- `_validate_rule_json` from `main.py`: the early returns of the source
are modelled as a chain of conditionals (a failed step check returns its
`(false, message)` pair unchanged). -/
def validateRuleJson (r : RuleJson) : Bool × Option String :=
  if ¬ (r.type_ = some "static" ∨ r.type_ = some "dynamic") then
    (false, some "type must be static or dynamic")
  else if trimChars (r.name.getD "").data = [] then
    (false, some "name is required")
  else if (validateSteps "trigger" r.trigger).1 = false then
    validateSteps "trigger" r.trigger
  else if (validateSteps "miss" r.miss).1 = false then
    validateSteps "miss" r.miss
  else if r.type_ = some "dynamic" then
    if r.dynamic_values.getD [] = [] then
      (false, some "dynamic_values required for dynamic patterns")
    else if (r.dynamic_values.getD []).any (fun x => x < 3 ∨ 8 < x) then
      (false, some "dynamic_values must be ints between 3 and 8")
    else (true, none)
  else (true, none)

/-- Per-rule alert configuration, with the `main.py` defaults applied
(`trigger_streak_threshold = 5`, `miss_threshold = 2`, `cooldown_rounds = 1`). -/
structure AlertsConfig where
  trigger_streak_threshold : Nat
  miss_threshold : Nat
  cooldown_rounds : Nat
deriving DecidableEq

/-- The payload of a fired alert. -/
structure AlertData where
  pattern_id : String
  event : String
  streak : Nat
  round : Nat
deriving DecidableEq

/-- Eligibility and alert kind as decided by the two threshold checks at the
top of `check_and_fire_alert`. -/
def alertKindFor (cfg : AlertsConfig) (eventType : String) (streak : Nat) : Option String :=
  if eventType = "trigger" ∧ cfg.trigger_streak_threshold ≤ streak then some "trigger_streak"
  else if eventType = "miss" ∧ cfg.miss_threshold ≤ streak then some "miss_streak"
  else none

/-- `check_and_fire_alert` from `main.py`, reduced to its decision core:
given the cooldown cache, either suppress (decrementing an outstanding
positive cooldown) or fire (resetting the cooldown). -/
def checkAndFireAlert (cfg : AlertsConfig) (pid : String) (eventType : String)
    (streak : Nat) (round : Nat) (cache : List (String × Nat)) :
    Option AlertData × List (String × Nat) :=
  match alertKindFor cfg eventType streak with
  | none => (none, cache)
  | some kind =>
    let key := pid ++ "_" ++ kind
    match lookupOpt cache key with
    | some n =>
      if 0 < n then (none, setAssoc cache key (n - 1))
      else (some ⟨pid, kind, streak, round⟩, setAssoc cache key cfg.cooldown_rounds)
    | none => (some ⟨pid, kind, streak, round⟩, setAssoc cache key cfg.cooldown_rounds)

/-- Fold a sequence of streak events through `check_and_fire_alert`,
collecting each call's result. -/
def runAlerts (cfg : AlertsConfig) (pid : String) (cache : List (String × Nat)) :
    List (String × Nat × Nat) → List (Option AlertData) × List (String × Nat)
  | [] => ([], cache)
  | (ev, streak, round) :: rest =>
    let p := checkAndFireAlert cfg pid ev streak round cache
    let next := runAlerts cfg pid p.2 rest
    (p.1 :: next.1, next.2)

/-- Rejection with a human-readable reason: validation returns `false`
together with a non-empty message. -/
def ruleRejected (r : RuleJson) : Prop :=
  (validateRuleJson r).1 = false ∧
    ∃ msg, (validateRuleJson r).2 = some msg ∧ msg ≠ ""

/-! Helper lemmas. -/

theorem lookupOpt_setAssoc {α : Type} (l : List (String × α)) (k k2 : String) (v : α) :
    lookupOpt (setAssoc l k v) k2 = if k2 = k then some v else lookupOpt l k2 := by
  induction l with
  | nil =>
    by_cases h : k2 = k
    · subst h; simp [setAssoc, lookupOpt]
    · simp [setAssoc, lookupOpt, h, Ne.symm h]
  | cons hd tl ih =>
    obtain ⟨k1, v1⟩ := hd
    by_cases h1 : k1 = k
    · subst h1
      by_cases h2 : k2 = k1
      · subst h2; simp [setAssoc, lookupOpt]
      · simp [setAssoc, lookupOpt, h2, Ne.symm h2]
    · by_cases h2 : k1 = k2
      · subst h2
        simp [setAssoc, lookupOpt, h1, Ne.symm h1]
      · simp [setAssoc, lookupOpt, h1, h2, ih]

theorem lookupD_setAssoc {α : Type} (l : List (String × α)) (k k2 : String) (v d : α) :
    lookupD (setAssoc l k v) k2 d = if k2 = k then v else lookupD l k2 d := by
  simp only [lookupD, lookupOpt_setAssoc]
  split <;> rfl

theorem updateStat_mutex (check : CheckResult) (s : Stat)
    (h : s.trigger_streak = 0 ∨ s.miss_streak = 0) :
    (updateStat check s).1.trigger_streak = 0 ∨ (updateStat check s).1.miss_streak = 0 := by
  simp only [updateStat]
  split
  · right
    split <;> rfl
  · split
    · left
      split <;> rfl
    · simpa using h

theorem updateStat_longest_mono (check : CheckResult) (s : Stat) :
    s.longest_trigger_streak ≤ (updateStat check s).1.longest_trigger_streak
    ∧ s.longest_miss_streak ≤ (updateStat check s).1.longest_miss_streak := by
  simp only [updateStat]
  split
  · constructor
    · split
      · simp
        omega
      · simp
    · split <;> simp
  · split
    · constructor
      · split <;> simp
      · split
        · simp
          omega
        · simp
    · simp

theorem mutex_processRound (patterns : List (String × Rule)) (colors : List String)
    (stats : List (String × Stat))
    (h : ∀ k, (lookupD stats k zeroStat).trigger_streak = 0
        ∨ (lookupD stats k zeroStat).miss_streak = 0) :
    ∀ k, (lookupD (processRound patterns colors stats).1 k zeroStat).trigger_streak = 0
        ∨ (lookupD (processRound patterns colors stats).1 k zeroStat).miss_streak = 0 := by
  induction patterns generalizing stats with
  | nil => simpa [processRound] using h
  | cons hd rest ih =>
    obtain ⟨pid, rule⟩ := hd
    by_cases ha : rule.active
    · simp only [processRound, ha, not_true_eq_false, if_false]
      apply ih
      intro k
      rw [lookupD_setAssoc]
      split
      · exact updateStat_mutex _ _ (h pid)
      · exact h k
    · have ha2 : rule.active = false := by simpa using ha
      simp only [processRound, ha2, Bool.not_false, if_true]
      exact ih stats h

theorem longest_processRound (patterns : List (String × Rule)) (colors : List String)
    (stats : List (String × Stat)) (k : String) :
    (lookupD stats k zeroStat).longest_trigger_streak
      ≤ (lookupD (processRound patterns colors stats).1 k zeroStat).longest_trigger_streak
    ∧ (lookupD stats k zeroStat).longest_miss_streak
      ≤ (lookupD (processRound patterns colors stats).1 k zeroStat).longest_miss_streak := by
  induction patterns generalizing stats with
  | nil => simp [processRound]
  | cons hd rest ih =>
    obtain ⟨pid, rule⟩ := hd
    by_cases ha : rule.active
    · simp only [processRound, ha, not_true_eq_false, if_false]
      refine ⟨le_trans ?_ (ih (setAssoc stats pid _)).1, le_trans ?_ (ih (setAssoc stats pid _)).2⟩
      · rw [lookupD_setAssoc]
        split
        · next he =>
          subst he
          exact (updateStat_longest_mono _ _).1
        · exact le_refl _
      · rw [lookupD_setAssoc]
        split
        · next he =>
          subst he
          exact (updateStat_longest_mono _ _).2
        · exact le_refl _
    · have ha2 : rule.active = false := by simpa using ha
      simp only [processRound, ha2, Bool.not_false, if_true]
      exact ih stats

theorem keyRecords_key (prev : List (String × Stat)) (e : String × Stat)
    (r : HistoryRecord) (hr : r ∈ keyRecords prev e) : r.key = e.1 := by
  simp only [keyRecords, List.mem_append] at hr
  rcases hr with hr | hr
  · split at hr
    · simp only [saveStreakHistory] at hr
      split at hr
      · simp at hr
      · simp at hr
        subst hr
        rfl
    · simp at hr
  · split at hr
    · simp only [saveStreakHistory] at hr
      split at hr
      · simp at hr
      · simp at hr
        subst hr
        rfl
    · simp at hr

theorem flatMap_keyRecords_not_mem (prev : List (String × Stat)) (k : String) :
    ∀ l : List (String × Stat), k ∉ l.map Prod.fst →
      (l.flatMap (keyRecords prev)).filter (fun r => r.key == k) = [] := by
  intro l
  induction l with
  | nil => simp
  | cons e tl ih =>
    intro h
    simp only [List.map_cons, List.mem_cons, not_or] at h
    simp only [List.flatMap_cons, List.filter_append]
    rw [ih h.2, List.append_nil]
    rw [List.filter_eq_nil_iff]
    intro r hr
    have hk := keyRecords_key prev e r hr
    simp only [hk, beq_iff_eq]
    intro hc
    exact h.1 hc.symm

theorem flatMap_keyRecords_filter (prev : List (String × Stat)) (k : String) (cur : Stat) :
    ∀ l : List (String × Stat), (l.map Prod.fst).Nodup → (k, cur) ∈ l →
      (l.flatMap (keyRecords prev)).filter (fun r => r.key == k) = keyRecords prev (k, cur) := by
  intro l
  induction l with
  | nil => simp
  | cons e tl ih =>
    intro hnd hmem
    simp only [List.map_cons, List.nodup_cons] at hnd
    simp only [List.flatMap_cons, List.filter_append]
    rcases List.mem_cons.mp hmem with he | htl
    · subst he
      rw [flatMap_keyRecords_not_mem prev k tl (by simpa using hnd.1)]
      rw [List.append_nil, List.filter_eq_self]
      intro r hr
      simp [keyRecords_key prev _ r hr]
    · have hne : e.1 ≠ k := by
        intro hc
        apply hnd.1
        rw [hc]
        exact List.mem_map_of_mem Prod.fst htl
      rw [ih hnd.2 htl]
      have hz : (keyRecords prev e).filter (fun r => r.key == k) = [] := by
        rw [List.filter_eq_nil_iff]
        intro r hr
        simp [keyRecords_key prev e r hr, hne]
      rw [hz, List.nil_append]

theorem keyRecords_filter_trigger (prev : List (String × Stat)) (e : String × Stat) :
    (keyRecords prev e).filter (fun r => r.streak_type == "trigger") =
      if 1 < (lookupD prev e.1 zeroStat).trigger_streak
          ∧ e.2.trigger_streak < (lookupD prev e.1 zeroStat).trigger_streak then
        [⟨e.1, "trigger", (lookupD prev e.1 zeroStat).trigger_streak⟩] else [] := by
  by_cases h1 : 1 < (lookupD prev e.1 zeroStat).trigger_streak
      ∧ e.2.trigger_streak < (lookupD prev e.1 zeroStat).trigger_streak
  · have hnl : ¬ (lookupD prev e.1 zeroStat).trigger_streak < 2 := by omega
    by_cases h2 : 1 < (lookupD prev e.1 zeroStat).miss_streak
        ∧ e.2.miss_streak < (lookupD prev e.1 zeroStat).miss_streak
    · have hnl2 : ¬ (lookupD prev e.1 zeroStat).miss_streak < 2 := by omega
      simp [keyRecords, saveStreakHistory, h1, h2, hnl, hnl2, List.filter]
    · simp [keyRecords, saveStreakHistory, h1, h2, hnl, List.filter]
  · by_cases h2 : 1 < (lookupD prev e.1 zeroStat).miss_streak
        ∧ e.2.miss_streak < (lookupD prev e.1 zeroStat).miss_streak
    · have hnl2 : ¬ (lookupD prev e.1 zeroStat).miss_streak < 2 := by omega
      simp [keyRecords, saveStreakHistory, h1, h2, hnl2, List.filter]
    · simp [keyRecords, saveStreakHistory, h1, h2, List.filter]

theorem keyRecords_filter_miss (prev : List (String × Stat)) (e : String × Stat) :
    (keyRecords prev e).filter (fun r => r.streak_type == "miss") =
      if 1 < (lookupD prev e.1 zeroStat).miss_streak
          ∧ e.2.miss_streak < (lookupD prev e.1 zeroStat).miss_streak then
        [⟨e.1, "miss", (lookupD prev e.1 zeroStat).miss_streak⟩] else [] := by
  by_cases h1 : 1 < (lookupD prev e.1 zeroStat).trigger_streak
      ∧ e.2.trigger_streak < (lookupD prev e.1 zeroStat).trigger_streak
  · have hnl : ¬ (lookupD prev e.1 zeroStat).trigger_streak < 2 := by omega
    by_cases h2 : 1 < (lookupD prev e.1 zeroStat).miss_streak
        ∧ e.2.miss_streak < (lookupD prev e.1 zeroStat).miss_streak
    · have hnl2 : ¬ (lookupD prev e.1 zeroStat).miss_streak < 2 := by omega
      simp [keyRecords, saveStreakHistory, h1, h2, hnl, hnl2, List.filter]
    · simp [keyRecords, saveStreakHistory, h1, h2, hnl, List.filter]
  · by_cases h2 : 1 < (lookupD prev e.1 zeroStat).miss_streak
        ∧ e.2.miss_streak < (lookupD prev e.1 zeroStat).miss_streak
    · have hnl2 : ¬ (lookupD prev e.1 zeroStat).miss_streak < 2 := by omega
      simp [keyRecords, saveStreakHistory, h1, h2, hnl2, List.filter]
    · simp [keyRecords, saveStreakHistory, h1, h2, List.filter]

theorem str_append_ne_empty (path lit : String) (h : lit.data ≠ []) : path ++ lit ≠ "" := by
  intro hc
  rw [String.ext_iff, String.data_append] at hc
  rcases List.append_eq_nil.mp hc with ⟨-, h2⟩
  exact h h2

theorem validateSteps_shape (path : String) :
    ∀ steps, validateSteps path steps = (true, none)
      ∨ ∃ msg, validateSteps path steps = (false, some msg) ∧ msg ≠ "" := by
  intro steps
  induction steps with
  | nil =>
    left
    rfl
  | cons hd tl ih =>
    rw [validateSteps]
    split_ifs
    all_goals first
      | exact ih
      | (right
         refine ⟨_, rfl, ?_⟩
         exact str_append_ne_empty _ _ (by decide))

theorem validateRuleJson_shape (r : RuleJson) :
    validateRuleJson r = (true, none)
      ∨ ∃ msg, validateRuleJson r = (false, some msg) ∧ msg ≠ "" := by
  rw [validateRuleJson]
  split_ifs
  all_goals first
    | exact Or.inl rfl
    | exact validateSteps_shape "trigger" r.trigger
    | exact validateSteps_shape "miss" r.miss
    | (right
       refine ⟨_, rfl, ?_⟩
       decide)

theorem validateSteps_accept_inv (path : String) :
    ∀ steps, (validateSteps path steps).1 = true →
      ∀ s ∈ steps,
        s.colors.getD [] ≠ []
        ∧ (∀ c ∈ s.colors.getD [], c = "red" ∨ c = "green" ∨ c = "yellow" ∨ c = "green_yellow")
        ∧ (s.operator.getD "minimum" = "exact" ∨ s.operator.getD "minimum" = "minimum"
            ∨ s.operator.getD "minimum" = "maximum")
        ∧ isValidCountExpr (s.count.getD (.int 1)) = true := by
  intro steps
  induction steps with
  | nil =>
    intro _ s hs
    simp at hs
  | cons hd tl ih =>
    intro hok s hs
    rw [validateSteps] at hok
    split_ifs at hok with h1 h2 h3 h4
    rcases List.mem_cons.mp hs with rfl | hs2
    · refine ⟨h1, ?_, h3, h4⟩
      intro c hc
      by_contra hc2
      apply h2
      rw [List.any_eq_true]
      exact ⟨c, hc, by simpa using hc2⟩
    · exact ih hok s hs2

theorem validateRuleJson_accept_inv (r : RuleJson) (h : (validateRuleJson r).1 = true) :
    (r.type_ = some "static" ∨ r.type_ = some "dynamic")
    ∧ trimChars (r.name.getD "").data ≠ []
    ∧ (validateSteps "trigger" r.trigger).1 = true
    ∧ (validateSteps "miss" r.miss).1 = true
    ∧ (r.type_ = some "dynamic" →
        r.dynamic_values.getD [] ≠ []
          ∧ ∀ x ∈ r.dynamic_values.getD [], 3 ≤ x ∧ x ≤ 8) := by
  rw [validateRuleJson] at h
  split_ifs at h with h1 h2 h3 h4 h5 h6 h7
  · rw [h3] at h
    exact absurd h (by decide)
  · rw [h4] at h
    exact absurd h (by decide)
  · refine ⟨h1, h2, by simpa using h3, by simpa using h4, fun _ => ⟨h6, ?_⟩⟩
    intro x hx
    simp only [List.any_eq_true, decide_eq_true_eq] at h7
    push_neg at h7
    have hx2 := h7 x hx
    omega
  · exact ⟨h1, h2, by simpa using h3, by simpa using h4, fun hd => absurd hd h5⟩

theorem dropWhile_all_false {α : Type} {p : α → Bool} :
    ∀ l : List α, (∀ c ∈ l, p c = false) → l.dropWhile p = l := by
  intro l h
  cases l with
  | nil => rfl
  | cons c cs =>
    rw [List.dropWhile_cons, if_neg]
    simp [h c (List.mem_cons_self c cs)]

theorem trimChars_eq_self (cs : List Char) (h : ∀ c ∈ cs, isPyWhitespace c = false) :
    trimChars cs = cs := by
  unfold trimChars
  rw [dropWhile_all_false cs h, dropWhile_all_false cs.reverse
    (fun c hc => h c (List.mem_reverse.mp hc)), List.reverse_reverse]

theorem replaceDX_all_digits (repl : List Char) :
    ∀ ds : List Char, (∀ c ∈ ds, c.isDigit = true) → replaceDX repl ds = ds := by
  intro ds
  induction ds with
  | nil =>
    intro _
    rfl
  | cons c cs ih =>
    intro h
    have hc : c ≠ '$' := by
      intro hc
      subst hc
      have hdol := h '$' (List.mem_cons_self _ _)
      simp at hdol
    rw [show replaceDX repl (c :: cs) = c :: replaceDX repl cs from ?_, ih ?_]
    · intro d hd
      exact h d (List.mem_cons_of_mem c hd)
    · rw [replaceDX.eq_def]
      split
      · next heq =>
        rw [List.cons.injEq] at heq
        exact absurd heq.1 hc
      · next heq =>
        rw [List.cons.injEq] at heq
        obtain ⟨rfl, rfl⟩ := heq
        rfl
      · next heq => simp at heq

theorem ctokOf_digit (c : Char) (hc : c.isDigit = true) : ctokOf c = some (.digit c) := by
  have hsp : c ≠ ' ' := by intro h; subst h; simp at hc
  have hpl : c ≠ '+' := by intro h; subst h; simp at hc
  have hmi : c ≠ '-' := by intro h; subst h; simp at hc
  rw [ctokOf, if_neg hsp, if_neg hpl, if_neg hmi, if_pos hc]

theorem ctoksOf_digits :
    ∀ ds : List Char, (∀ c ∈ ds, c.isDigit = true) →
      ctoksOf ds = some (ds.map CTok.digit) := by
  intro ds
  induction ds with
  | nil =>
    intro _
    rfl
  | cons c cs ih =>
    intro h
    rw [ctoksOf, ih (fun d hd => h d (List.mem_cons_of_mem c hd)),
      ctokOf_digit c (h c (List.mem_cons_self _ _))]
    rfl

theorem groupRuns_digits :
    ∀ ds : List Char, ds ≠ [] →
      groupRuns (ds.map CTok.digit) = [NTok.num ds] := by
  intro ds
  induction ds with
  | nil =>
    intro h
    exact absurd rfl h
  | cons c cs ih =>
    intro _
    cases cs with
    | nil => rfl
    | cons d cs2 =>
      have h2 := ih (by simp)
      simp only [List.map_cons] at h2 ⊢
      show consNum c (CTok.digit d :: cs2.map CTok.digit)
        (groupRuns (CTok.digit d :: cs2.map CTok.digit)) = [NTok.num (c :: d :: cs2)]
      rw [h2]
      rfl

theorem tokenize_digits :
    ∀ ds : List Char, ds ≠ [] → (∀ c ∈ ds, c.isDigit = true) → validLit ds = true →
      tokenize ds = some [Tok.num (digitsToNat ds)] := by
  intro ds hne hd hv
  rw [tokenize, ctoksOf_digits ds hd]
  show toksOfRuns (groupRuns (ds.map CTok.digit)) = _
  rw [groupRuns_digits ds hne]
  rw [toksOfRuns, if_pos hv]
  rfl

theorem tokenize_digit_sign (d sign : Char) (hdig : d.isDigit = true)
    (hsign : sign = '+' ∨ sign = '-') (ds : List Char) (hne : ds ≠ [])
    (hds : ∀ c ∈ ds, c.isDigit = true) (hv : validLit ds = true) :
    tokenize (d :: sign :: ds) =
      some [Tok.num (digitsToNat [d]),
        if sign = '+' then Tok.plus else Tok.minus,
        Tok.num (digitsToNat ds)] := by
  have hgr : groupRuns (ds.map CTok.digit) = [NTok.num ds] := groupRuns_digits ds hne
  have hvd : validLit [d] = true := by simp [validLit]
  rcases hsign with rfl | rfl
  · have hin : ctoksOf ('+' :: ds) = some (CTok.plus :: ds.map CTok.digit) := by
      rw [ctoksOf, ctoksOf_digits ds hds, show ctokOf '+' = some CTok.plus from rfl]
    have hct : ctoksOf (d :: '+' :: ds) =
        some (CTok.digit d :: CTok.plus :: ds.map CTok.digit) := by
      rw [ctoksOf, hin, ctokOf_digit d hdig]
    rw [tokenize, hct]
    show toksOfRuns (NTok.num [d] :: NTok.plus :: groupRuns (ds.map CTok.digit)) = _
    rw [hgr]
    rw [toksOfRuns, if_pos hvd, toksOfRuns, toksOfRuns, if_pos hv]
    rfl
  · have hin : ctoksOf ('-' :: ds) = some (CTok.minus :: ds.map CTok.digit) := by
      rw [ctoksOf, ctoksOf_digits ds hds, show ctokOf '-' = some CTok.minus from rfl]
    have hct : ctoksOf (d :: '-' :: ds) =
        some (CTok.digit d :: CTok.minus :: ds.map CTok.digit) := by
      rw [ctoksOf, hin, ctokOf_digit d hdig]
    rw [tokenize, hct]
    show toksOfRuns (NTok.num [d] :: NTok.minus :: groupRuns (ds.map CTok.digit)) = _
    rw [hgr]
    rw [toksOfRuns, if_pos hvd, toksOfRuns, toksOfRuns, if_pos hv]
    rfl

theorem pyEval_digit_sign (d sign : Char) (hdig : d.isDigit = true)
    (hsign : sign = '+' ∨ sign = '-') (ds : List Char) (hne : ds ≠ [])
    (hds : ∀ c ∈ ds, c.isDigit = true) (hv : validLit ds = true) :
    pyEval (d :: sign :: ds) =
      some (if sign = '+' then (digitsToNat [d] : Int) + (digitsToNat ds : Int)
        else (digitsToNat [d] : Int) - (digitsToNat ds : Int)) := by
  have ht := tokenize_digit_sign d sign hdig hsign ds hne hds hv
  rw [pyEval, ht]
  rcases hsign with rfl | rfl
  · simp [parseGo]
  · simp [parseGo]
    ring

theorem replaceDX_cons_not_dollar (repl : List Char) (c : Char) (hc : c ≠ '$') (l : List Char) :
    replaceDX repl (c :: l) = c :: replaceDX repl l := by
  rw [replaceDX.eq_def]
  split
  · next heq =>
    rw [List.cons.injEq] at heq
    exact absurd heq.1 hc
  · next heq =>
    rw [List.cons.injEq] at heq
    obtain ⟨rfl, rfl⟩ := heq
    rfl
  · next heq => simp at heq

theorem digit_not_ws (c : Char) (h : c.isDigit = true) : isPyWhitespace c = false := by
  by_contra hc
  have hc2 : isPyWhitespace c = true := by
    cases hw : isPyWhitespace c
    · exact absurd hw hc
    · rfl
  simp only [isPyWhitespace, decide_eq_true_eq] at hc2
  rcases hc2 with rfl | rfl | rfl | rfl | rfl | rfl <;> simp at h

theorem replaceXExpr_sign_core (x : Int) (d : Char) (hx : (toString x).data = [d])
    (hd : d.isDigit = true) (hdx : (digitsToNat [d] : Int) = x)
    (sign : Char) (hsign : sign = '+' ∨ sign = '-') (ds : List Char) (hne : ds ≠ [])
    (hds : ∀ c ∈ ds, c.isDigit = true) (hv : validLit ds = true) :
    replaceXExpr (.str (String.mk ('$' :: 'X' :: sign :: ds))) x =
      .int (if sign = '+' then x + (digitsToNat ds : Int) else x - (digitsToNat ds : Int)) := by
  have hsd : sign ≠ '$' := by rcases hsign with rfl | rfl <;> decide
  have hrep : replaceDX (toString x).data ('$' :: 'X' :: sign :: ds) = d :: sign :: ds := by
    rw [hx]
    rw [show replaceDX [d] ('$' :: 'X' :: sign :: ds) = [d] ++ replaceDX [d] (sign :: ds)
      from rfl]
    rw [replaceDX_cons_not_dollar [d] sign hsd ds, replaceDX_all_digits [d] ds hds]
    rfl
  have htrim : trimChars (d :: sign :: ds) = d :: sign :: ds := by
    apply trimChars_eq_self
    intro c hc
    rcases List.mem_cons.mp hc with rfl | hc2
    · exact digit_not_ws c hd
    · rcases List.mem_cons.mp hc2 with rfl | hc3
      · rcases hsign with rfl | rfl <;> rfl
      · exact digit_not_ws c (hds c hc3)
  have hall : (d :: sign :: ds).all allowedExprChar = true := by
    rw [List.all_eq_true]
    intro c hc
    rcases List.mem_cons.mp hc with rfl | hc2
    · simp [allowedExprChar, hd]
    · rcases List.mem_cons.mp hc2 with rfl | hc3
      · rcases hsign with rfl | rfl <;> rfl
      · simp [allowedExprChar, hds c hc3]
  simp only [replaceXExpr]
  rw [show containsDX ('$' :: 'X' :: sign :: ds) = true from rfl]
  simp only [not_true, if_false]
  rw [hrep, htrim]
  rw [if_pos hall]
  rw [pyEval_digit_sign d sign hd hsign ds hne hds hv]
  rcases hsign with rfl | rfl
  · simp [hdx]
  · simp [hdx]

theorem replaceXExpr_sign (x : Int) (h3 : 3 ≤ x) (h8 : x ≤ 8)
    (sign : Char) (hsign : sign = '+' ∨ sign = '-') (ds : List Char) (hne : ds ≠ [])
    (hds : ∀ c ∈ ds, c.isDigit = true) (hv : validLit ds = true) :
    replaceXExpr (.str (String.mk ('$' :: 'X' :: sign :: ds))) x =
      .int (if sign = '+' then x + (digitsToNat ds : Int) else x - (digitsToNat ds : Int)) := by
  interval_cases x
  · exact replaceXExpr_sign_core 3 '3' (by decide) (by decide) (by decide) sign hsign ds hne hds hv
  · exact replaceXExpr_sign_core 4 '4' (by decide) (by decide) (by decide) sign hsign ds hne hds hv
  · exact replaceXExpr_sign_core 5 '5' (by decide) (by decide) (by decide) sign hsign ds hne hds hv
  · exact replaceXExpr_sign_core 6 '6' (by decide) (by decide) (by decide) sign hsign ds hne hds hv
  · exact replaceXExpr_sign_core 7 '7' (by decide) (by decide) (by decide) sign hsign ds hne hds hv
  · exact replaceXExpr_sign_core 8 '8' (by decide) (by decide) (by decide) sign hsign ds hne hds hv



theorem matchSteps_malformed (tyag : Bool) :
    ∀ steps buf, (∃ step ∈ steps, parseCountSpec step.count = none) →
      matchSteps tyag steps buf = false := by
  intro steps
  induction steps with
  | nil =>
    intro buf h
    rcases h with ⟨s, hs, -⟩
    simp at hs
  | cons st rest ih =>
    intro buf h
    cases buf with
    | nil => rfl
    | cons c cs =>
      rcases h with ⟨s, hs, hn⟩
      rcases List.mem_cons.mp hs with rfl | hs2
      · simp only [matchSteps, hn]
      · rw [matchSteps]
        cases hp : parseCountSpec st.count with
        | none => rfl
        | some count =>
          simp only []
          rw [ih _ ⟨s, hs2, hn⟩, Bool.and_false]

/-- C1: a step `exact`/`green_yellow`/count 3 matches a tail of three greens
and rejects four; with `minimum` both match; in general a step greedily
consumes matching outcomes and then `exact` demands equality, `minimum`
at least, `maximum` at most, and a failing step fails the whole match. -/
theorem c1_match_sequence_operators :
    matchSequence ["green", "green", "green"]
      [⟨["green_yellow"], "exact", .int 3⟩] true = true
    ∧ matchSequence ["green", "green", "green", "green"]
      [⟨["green_yellow"], "exact", .int 3⟩] true = false
    ∧ matchSequence ["green", "green", "green"]
      [⟨["green_yellow"], "minimum", .int 3⟩] true = true
    ∧ matchSequence ["green", "green", "green", "green"]
      [⟨["green_yellow"], "minimum", .int 3⟩] true = true
    ∧ (∀ m c, opCheck "exact" m c = decide ((m : Int) = c)
        ∧ opCheck "minimum" m c = decide (c ≤ (m : Int))
        ∧ opCheck "maximum" m c = decide ((m : Int) ≤ c))
    ∧ (∀ tyag step rest b bs count, parseCountSpec step.count = some count →
        matchSteps tyag (step :: rest) (b :: bs) =
          (opCheck step.operator (consumeRun step.colors tyag (b :: bs)).1 count
            && matchSteps tyag rest (consumeRun step.colors tyag (b :: bs)).2))
    ∧ (∀ tyag step rest b bs count, parseCountSpec step.count = some count →
        opCheck step.operator (consumeRun step.colors tyag (b :: bs)).1 count = false →
        matchSteps tyag (step :: rest) (b :: bs) = false) := by
  refine ⟨by decide, by decide, by decide, by decide, ?_, ?_, ?_⟩
  · intro m c
    refine ⟨by simp [opCheck], by simp [opCheck], by simp [opCheck]⟩
  · intro tyag step rest b bs count h
    simp only [matchSteps, h]
  · intro tyag step rest b bs count h hop
    simp only [matchSteps, h, hop, Bool.false_and]

/-- C1 witness: the step check applied at a concrete failing step. -/
theorem c1_match_sequence_operators_witness :
    matchSteps true [⟨["red"], "exact", CountVal.int 1⟩] ["green"] = false :=
  c1_match_sequence_operators.2.2.2.2.2.2 true ⟨["red"], "exact", .int 1⟩ [] "green" [] 1
    rfl (by decide)

/-- C2 counterexample: with `treat_yellow_as_green` set, a yellow outcome
still matches the literal group member `yellow` (the source also compares
the raw color), contradicting the claim that it does not. -/
theorem c2_literal_yellow_counterexample :
    colorMatchesGroup "yellow" ["yellow"] true = true := by decide

/-- C2 (amended): `green_yellow` matches green-or-yellow outcomes, and a
literal color-name member matches an outcome that equals it either after
normalization or as the raw color; with the flag set, yellow matches both
the literal member green and the literal member yellow. -/
theorem c2_color_group_membership :
    (∀ c tyag, (c = "red" ∨ c = "green" ∨ c = "yellow") →
      colorMatchesGroup c ["green_yellow"] tyag = decide (c = "green" ∨ c = "yellow"))
    ∧ (∀ c g tyag, (c = "red" ∨ c = "green" ∨ c = "yellow") →
        (g = "red" ∨ g = "green" ∨ g = "yellow") →
        colorMatchesGroup c [g] tyag = decide (g = normalizeColor c tyag ∨ g = c))
    ∧ colorMatchesGroup "yellow" ["green"] true = true
    ∧ colorMatchesGroup "yellow" ["yellow"] true = true := by
  refine ⟨?_, ?_, by decide, by decide⟩
  · intro c tyag hc
    rcases hc with rfl | rfl | rfl <;> cases tyag <;> decide
  · intro c g tyag hc hg
    rcases hc with rfl | rfl | rfl <;> rcases hg with rfl | rfl | rfl <;>
      cases tyag <;> decide

/-- C2 witness: the membership characterization at a concrete input. -/
theorem c2_color_group_membership_witness :
    colorMatchesGroup "yellow" ["green_yellow"] false =
      decide (("yellow" : String) = "green" ∨ ("yellow" : String) = "yellow") :=
  c2_color_group_membership.1 "yellow" false (Or.inr (Or.inr rfl))

/-- C4: a trigger match advances trigger_streak, zeroes miss_streak, bumps
total_triggers and the longest streak; symmetrically for a miss match;
no match leaves the state unchanged with no event; five trigger rounds
from zero then one miss behave as claimed. -/
theorem c4_streak_update :
    (∀ s check, check.trigger = true →
      (updateStat check s).1.trigger_streak = s.trigger_streak + 1
      ∧ (updateStat check s).1.miss_streak = 0
      ∧ (updateStat check s).1.total_triggers = s.total_triggers + 1
      ∧ (updateStat check s).1.longest_trigger_streak =
          max s.longest_trigger_streak (s.trigger_streak + 1)
      ∧ (updateStat check s).1.total_misses = s.total_misses
      ∧ (updateStat check s).2 = some ("trigger", s.trigger_streak + 1))
    ∧ (∀ s check, check.trigger = false → check.miss = true →
      (updateStat check s).1.miss_streak = s.miss_streak + 1
      ∧ (updateStat check s).1.trigger_streak = 0
      ∧ (updateStat check s).1.total_misses = s.total_misses + 1
      ∧ (updateStat check s).1.longest_miss_streak =
          max s.longest_miss_streak (s.miss_streak + 1)
      ∧ (updateStat check s).1.total_triggers = s.total_triggers
      ∧ (updateStat check s).2 = some ("miss", s.miss_streak + 1))
    ∧ (∀ s check, check.trigger = false → check.miss = false →
      updateStat check s = (s, none))
    ∧ (([⟨true, false⟩, ⟨true, false⟩, ⟨true, false⟩, ⟨true, false⟩, ⟨true, false⟩] :
        List CheckResult).foldl (fun s c => (updateStat c s).1) zeroStat).trigger_streak = 5
    ∧ (([⟨true, false⟩, ⟨true, false⟩, ⟨true, false⟩, ⟨true, false⟩, ⟨true, false⟩] :
        List CheckResult).foldl
          (fun s c => (updateStat c s).1) zeroStat).longest_trigger_streak = 5
    ∧ (([⟨true, false⟩, ⟨true, false⟩, ⟨true, false⟩, ⟨true, false⟩, ⟨true, false⟩] :
        List CheckResult).foldl (fun s c => (updateStat c s).1) zeroStat).miss_streak = 0
    ∧ (([⟨true, false⟩, ⟨true, false⟩, ⟨true, false⟩, ⟨true, false⟩, ⟨true, false⟩,
        ⟨false, true⟩] :
        List CheckResult).foldl (fun s c => (updateStat c s).1) zeroStat).trigger_streak = 0
    ∧ (([⟨true, false⟩, ⟨true, false⟩, ⟨true, false⟩, ⟨true, false⟩, ⟨true, false⟩,
        ⟨false, true⟩] :
        List CheckResult).foldl (fun s c => (updateStat c s).1) zeroStat).miss_streak = 1 := by
  refine ⟨?_, ?_, ?_, by decide, by decide, by decide, by decide, by decide⟩
  · intro s check h
    simp only [updateStat, h, if_true]
    split <;> simp_all <;> omega
  · intro s check h1 h2
    simp only [updateStat, h1, h2, Bool.false_eq_true, if_false, if_true]
    split <;> simp_all <;> omega
  · intro s check h1 h2
    simp [updateStat, h1, h2]

/-- C4 witness: the no-match clause at a concrete state. -/
theorem c4_streak_update_witness :
    updateStat ⟨false, false⟩ zeroStat = (zeroStat, none) :=
  c4_streak_update.2.2.1 zeroStat ⟨false, false⟩ rfl rfl

/-- C10: when both the trigger and the miss step lists match in a round,
only a trigger event is recorded: trigger_streak and total_triggers
advance, miss_streak resets to 0, total_misses is unchanged. -/
theorem c10_trigger_precedence (colors : List String) (rule : Rule) (s : Stat)
    (h : checkPattern colors rule = ⟨true, true⟩) :
    (updateStat (checkPattern colors rule) s).2 = some ("trigger", s.trigger_streak + 1)
    ∧ (updateStat (checkPattern colors rule) s).1.trigger_streak = s.trigger_streak + 1
    ∧ (updateStat (checkPattern colors rule) s).1.total_triggers = s.total_triggers + 1
    ∧ (updateStat (checkPattern colors rule) s).1.miss_streak = 0
    ∧ (updateStat (checkPattern colors rule) s).1.total_misses = s.total_misses := by
  rw [h]
  have htr : (CheckResult.mk true true).trigger = true := rfl
  simp only [updateStat, htr, if_true]
  split <;> simp_all <;> omega

/-- C10 witness: a concrete rule and buffer where trigger and miss both
match, recording only the trigger event. -/
theorem c10_trigger_precedence_witness :
    (updateStat (checkPattern ["green"]
      ⟨"r", "static", true, [⟨["green_yellow"], "minimum", .int 1⟩],
        [⟨["green_yellow"], "minimum", .int 1⟩], none, none, true⟩) zeroStat).2 =
      some ("trigger", 1) :=
  (c10_trigger_precedence ["green"]
    ⟨"r", "static", true, [⟨["green_yellow"], "minimum", .int 1⟩],
      [⟨["green_yellow"], "minimum", .int 1⟩], none, none, true⟩ zeroStat (by decide)).1

/-- C5: starting from the all-zero state, at most one of trigger_streak and
miss_streak is non-zero, preserved by every state update and by every
processed round for every rule key; the longest-streak counters are
monotonically non-decreasing. -/
theorem c5_streak_invariants :
    (zeroStat.trigger_streak = 0 ∨ zeroStat.miss_streak = 0)
    ∧ (∀ check s, (s.trigger_streak = 0 ∨ s.miss_streak = 0) →
        ((updateStat check s).1.trigger_streak = 0 ∨ (updateStat check s).1.miss_streak = 0))
    ∧ (∀ check s, s.longest_trigger_streak ≤ (updateStat check s).1.longest_trigger_streak
        ∧ s.longest_miss_streak ≤ (updateStat check s).1.longest_miss_streak)
    ∧ (∀ patterns colors stats,
        (∀ k, (lookupD stats k zeroStat).trigger_streak = 0
            ∨ (lookupD stats k zeroStat).miss_streak = 0) →
        ∀ k, (lookupD (processRound patterns colors stats).1 k zeroStat).trigger_streak = 0
            ∨ (lookupD (processRound patterns colors stats).1 k zeroStat).miss_streak = 0)
    ∧ (∀ patterns colors stats k,
        (lookupD stats k zeroStat).longest_trigger_streak
          ≤ (lookupD (processRound patterns colors stats).1 k zeroStat).longest_trigger_streak
        ∧ (lookupD stats k zeroStat).longest_miss_streak
          ≤ (lookupD (processRound patterns colors stats).1 k zeroStat).longest_miss_streak) :=
  ⟨Or.inl rfl,
   fun check s h => updateStat_mutex check s h,
   fun check s => updateStat_longest_mono check s,
   fun patterns colors stats h => mutex_processRound patterns colors stats h,
   fun patterns colors stats k => longest_processRound patterns colors stats k⟩

/-- C5 witness: round-level preservation evaluated at a concrete round. -/
theorem c5_streak_invariants_witness :
    (lookupD (processRound
        [("1", ⟨"r", "static", true, [⟨["green"], "minimum", CountVal.int 1⟩],
          [⟨["red"], "minimum", CountVal.int 1⟩], none, none, true⟩)]
        ["green"] []).1 "1" zeroStat).trigger_streak = 0
    ∨ (lookupD (processRound
        [("1", ⟨"r", "static", true, [⟨["green"], "minimum", CountVal.int 1⟩],
          [⟨["red"], "minimum", CountVal.int 1⟩], none, none, true⟩)]
        ["green"] []).1 "1" zeroStat).miss_streak = 0 :=
  c5_streak_invariants.2.2.2.1
    [("1", ⟨"r", "static", true, [⟨["green"], "minimum", CountVal.int 1⟩],
      [⟨["red"], "minimum", CountVal.int 1⟩], none, none, true⟩)]
    ["green"] [] (fun _ => Or.inl rfl) "1"

/-- C6: against the pre-round snapshot, a rule key whose streak was above 1
and strictly decreased this round contributes exactly one history record of
that kind carrying the pre-round length; a streak at or below 1 contributes
none of that kind. -/
theorem c6_streak_history (patterns : List (String × Rule)) (colors : List String)
    (stats : List (String × Stat)) (k : String) (cur : Stat)
    (hnd : ((processRoundPatterns patterns colors stats).1.map Prod.fst).Nodup)
    (hmem : (k, cur) ∈ (processRoundPatterns patterns colors stats).1) :
    (1 < (lookupD stats k zeroStat).trigger_streak →
      cur.trigger_streak < (lookupD stats k zeroStat).trigger_streak →
      ((processRoundPatterns patterns colors stats).2.2.filter
          (fun r => r.key == k && r.streak_type == "trigger")) =
        [⟨k, "trigger", (lookupD stats k zeroStat).trigger_streak⟩])
    ∧ ((lookupD stats k zeroStat).trigger_streak ≤ 1 →
      ((processRoundPatterns patterns colors stats).2.2.filter
          (fun r => r.key == k && r.streak_type == "trigger")) = [])
    ∧ (1 < (lookupD stats k zeroStat).miss_streak →
      cur.miss_streak < (lookupD stats k zeroStat).miss_streak →
      ((processRoundPatterns patterns colors stats).2.2.filter
          (fun r => r.key == k && r.streak_type == "miss")) =
        [⟨k, "miss", (lookupD stats k zeroStat).miss_streak⟩])
    ∧ ((lookupD stats k zeroStat).miss_streak ≤ 1 →
      ((processRoundPatterns patterns colors stats).2.2.filter
          (fun r => r.key == k && r.streak_type == "miss")) = []) := by
  have hrec : (processRoundPatterns patterns colors stats).2.2 =
      (processRoundPatterns patterns colors stats).1.flatMap (keyRecords stats) := rfl
  have htr : ((processRoundPatterns patterns colors stats).2.2.filter
      (fun r => r.key == k && r.streak_type == "trigger")) =
      if 1 < (lookupD stats k zeroStat).trigger_streak
          ∧ cur.trigger_streak < (lookupD stats k zeroStat).trigger_streak then
        [⟨k, "trigger", (lookupD stats k zeroStat).trigger_streak⟩] else [] := by
    have hcomm : (fun r : HistoryRecord => r.key == k && r.streak_type == "trigger") =
        (fun r => r.streak_type == "trigger" && r.key == k) := by
      funext r
      exact Bool.and_comm _ _
    rw [hrec, hcomm, ← List.filter_filter,
      flatMap_keyRecords_filter stats k cur _ hnd hmem,
      keyRecords_filter_trigger]
  have hms : ((processRoundPatterns patterns colors stats).2.2.filter
      (fun r => r.key == k && r.streak_type == "miss")) =
      if 1 < (lookupD stats k zeroStat).miss_streak
          ∧ cur.miss_streak < (lookupD stats k zeroStat).miss_streak then
        [⟨k, "miss", (lookupD stats k zeroStat).miss_streak⟩] else [] := by
    have hcomm : (fun r : HistoryRecord => r.key == k && r.streak_type == "miss") =
        (fun r => r.streak_type == "miss" && r.key == k) := by
      funext r
      exact Bool.and_comm _ _
    rw [hrec, hcomm, ← List.filter_filter,
      flatMap_keyRecords_filter stats k cur _ hnd hmem,
      keyRecords_filter_miss]
  refine ⟨fun h1 h2 => ?_, fun h1 => ?_, fun h1 h2 => ?_, fun h1 => ?_⟩
  · rw [htr, if_pos ⟨h1, h2⟩]
  · rw [htr, if_neg (by omega)]
  · rw [hms, if_pos ⟨h1, h2⟩]
  · rw [hms, if_neg (by omega)]

/-- C6 witness: a trigger streak of 4 reset by a miss round emits exactly
one record of length 4. -/
theorem c6_streak_history_witness :
    ((processRoundPatterns
        [("1", ⟨"r", "static", true, [⟨["green"], "minimum", CountVal.int 1⟩],
          [⟨["red"], "minimum", CountVal.int 1⟩], none, none, true⟩)]
        ["red"] [("1", ⟨4, 0, 4, 0, 4, 0⟩)]).2.2.filter
      (fun r => r.key == "1" && r.streak_type == "trigger")) = [⟨"1", "trigger", 4⟩] :=
  (c6_streak_history
    [("1", ⟨"r", "static", true, [⟨["green"], "minimum", CountVal.int 1⟩],
      [⟨["red"], "minimum", CountVal.int 1⟩], none, none, true⟩)]
    ["red"] [("1", ⟨4, 0, 4, 0, 4, 0⟩)] "1" ⟨0, 1, 4, 1, 4, 1⟩
    (by decide) (by decide)).1 (by decide) (by decide)

/-- C7: an eligible alert event with a positive outstanding cooldown is
suppressed and decrements the counter; otherwise it fires and resets the
counter to cooldown_rounds; with threshold 3 and cooldown 1, streaks
3, 4, 5 produce fire, suppress, fire. -/
theorem c7_alert_cooldown :
    (∀ cfg pid ev streak round cache kind n,
      alertKindFor cfg ev streak = some kind →
      lookupOpt cache (pid ++ "_" ++ kind) = some n → 0 < n →
      checkAndFireAlert cfg pid ev streak round cache =
        (none, setAssoc cache (pid ++ "_" ++ kind) (n - 1)))
    ∧ (∀ cfg pid ev streak round cache kind,
      alertKindFor cfg ev streak = some kind →
      (lookupOpt cache (pid ++ "_" ++ kind) = none
        ∨ lookupOpt cache (pid ++ "_" ++ kind) = some 0) →
      checkAndFireAlert cfg pid ev streak round cache =
        (some ⟨pid, kind, streak, round⟩,
          setAssoc cache (pid ++ "_" ++ kind) cfg.cooldown_rounds))
    ∧ (∀ cfg pid ev streak round cache,
      alertKindFor cfg ev streak = none →
      checkAndFireAlert cfg pid ev streak round cache = (none, cache))
    ∧ (runAlerts ⟨3, 2, 1⟩ "1" [] [("trigger", 3, 1), ("trigger", 4, 2), ("trigger", 5, 3)]).1 =
      [some ⟨"1", "trigger_streak", 3, 1⟩, none, some ⟨"1", "trigger_streak", 5, 3⟩] := by
  refine ⟨?_, ?_, ?_, by decide⟩
  · intro cfg pid ev streak round cache kind n h1 h2 h3
    simp only [checkAndFireAlert, h1, h2, if_pos h3]
  · intro cfg pid ev streak round cache kind h1 h2
    rcases h2 with h2 | h2 <;> simp [checkAndFireAlert, h1, h2]
  · intro cfg pid ev streak round cache h1
    simp only [checkAndFireAlert, h1]

/-- C7 witness: the suppress-and-decrement clause at a concrete state. -/
theorem c7_alert_cooldown_witness :
    checkAndFireAlert ⟨3, 2, 1⟩ "1" "trigger" 4 2 [("1_trigger_streak", 1)] =
      (none, setAssoc [("1_trigger_streak", 1)] ("1" ++ "_" ++ "trigger_streak") 0) :=
  c7_alert_cooldown.1 ⟨3, 2, 1⟩ "1" "trigger" 4 2 [("1_trigger_streak", 1)]
    "trigger_streak" 1 (by decide) (by decide) (by decide)

/-- C8: the matcher returns false rather than raising: an empty buffer
fails, a buffer exhausted with steps remaining fails, and any step whose
count is a string that does not parse as an integer makes the whole match
return false. -/
theorem c8_match_sequence_safety :
    (∀ sequence tyag, matchSequence [] sequence tyag = false)
    ∧ (∀ tyag step rest, matchSteps tyag (step :: rest) [] = false)
    ∧ (∀ tyag steps buf, (∃ step ∈ steps, parseCountSpec step.count = none) →
        matchSteps tyag steps buf = false)
    ∧ (∀ colors sequence tyag, (∃ step ∈ sequence, parseCountSpec step.count = none) →
        matchSequence colors sequence tyag = false) := by
  refine ⟨?_, ?_, fun tyag => matchSteps_malformed tyag, ?_⟩
  · intro sequence tyag
    simp [matchSequence]
  · intro tyag step rest
    rfl
  · intro colors sequence tyag h
    rw [matchSequence]
    split_ifs with hc
    · rfl
    · apply matchSteps_malformed
      rcases h with ⟨s, hs, hn⟩
      exact ⟨s, List.mem_reverse.mpr hs, hn⟩

/-- C8 witness: an unresolved symbolic count makes a concrete match fail. -/
theorem c8_match_sequence_safety_witness :
    matchSequence ["green"] [⟨["green"], "minimum", CountVal.str "$X"⟩] true = false :=
  c8_match_sequence_safety.2.2.2 ["green"] [⟨["green"], "minimum", CountVal.str "$X"⟩] true
    ⟨⟨["green"], "minimum", CountVal.str "$X"⟩, by decide, by decide⟩

/-- C3 counterexample: the chained form is evaluated rather than left
unchanged: substituting 3 into the string turns it into the integer 5,
not the original string. -/
theorem c3_chain_evaluated_counterexample :
    replaceXExpr (.str "$X+1+1") 3 = .int 5
    ∧ CountVal.int 5 ≠ .str "$X+1+1" := by decide

/-- C3 (amended): expansion yields one sub-rule per dynamic value in order
with distinct stamped names; literal counts are untouched; a string made of
the substituted value and + - digits evaluates (so the chained form gives
X plus 2), while strings without an occurrence or with other characters
are left unchanged. -/
theorem c3_dynamic_expansion :
    (∀ r : Rule, r.type_ = "dynamic" →
      (expandDynamicPattern r).length = (r.dynamic_values.getD [3, 4, 5, 6, 7, 8]).length
      ∧ (expandDynamicPattern r).map Rule.name =
          (r.dynamic_values.getD [3, 4, 5, 6, 7, 8]).map
            (fun x => r.name ++ " (X=" ++ toString x ++ ")")
      ∧ (expandDynamicPattern r).map Rule.dynamic_x =
          (r.dynamic_values.getD [3, 4, 5, 6, 7, 8]).map (fun x => some x))
    ∧ ((expandDynamicPattern ⟨"dyn", "dynamic", true,
        [⟨["green_yellow"], "exact", .str "$X"⟩], [], some [3, 4, 5], none, true⟩).map
          (fun r => r.trigger.map Step.count) =
        [[.int 3], [.int 4], [.int 5]])
    ∧ ((expandDynamicPattern ⟨"dyn", "dynamic", true,
        [⟨["green_yellow"], "exact", .str "$X"⟩], [], some [3, 4, 5], none, true⟩).map
          Rule.name).Nodup
    ∧ (expandDynamicPattern ⟨"dyn", "dynamic", true,
        [⟨["green_yellow"], "exact", .str "$X"⟩], [], some [3, 4, 5], none, true⟩).length = 3
    ∧ (∀ n x, replaceXExpr (.int n) x = .int n)
    ∧ (∀ x : Int, 3 ≤ x → x ≤ 8 → replaceXExpr (.str "$X") x = .int x)
    ∧ (∀ x : Int, 3 ≤ x → x ≤ 8 → ∀ ds : List Char, ds ≠ [] →
        (∀ c ∈ ds, c.isDigit = true) → validLit ds = true →
        replaceXExpr (.str (String.mk ('$' :: 'X' :: '+' :: ds))) x =
          .int (x + (digitsToNat ds : Int))
        ∧ replaceXExpr (.str (String.mk ('$' :: 'X' :: '-' :: ds))) x =
          .int (x - (digitsToNat ds : Int)))
    ∧ (∀ x, replaceXExpr (.str "$Y") x = .str "$Y")
    ∧ (∀ x : Int, 3 ≤ x → x ≤ 8 → replaceXExpr (.str "$X+1+1") x = .int (x + 2)) := by
  refine ⟨?_, by decide, by decide, by decide, ?_, ?_, ?_, ?_, ?_⟩
  · intro r h
    refine ⟨?_, ?_, ?_⟩ <;> simp [expandDynamicPattern, h]
  · intro n x
    rfl
  · intro x h3 h8
    interval_cases x <;> decide
  · intro x h3 h8 ds hne hds hv
    constructor
    · have hp := replaceXExpr_sign x h3 h8 '+' (Or.inl rfl) ds hne hds hv
      simpa using hp
    · have hm := replaceXExpr_sign x h3 h8 '-' (Or.inr rfl) ds hne hds hv
      simpa using hm
  · intro x
    simp only [replaceXExpr]
    rw [if_pos (by decide)]
  · intro x h3 h8
    interval_cases x <;> decide

/-- C3 witness: the sign-form resolution applied at a concrete input. -/
theorem c3_dynamic_expansion_witness :
    replaceXExpr (.str (String.mk ['$', 'X', '+', '2'])) 4 =
      .int (4 + (digitsToNat ['2'] : Int)) :=
  ((c3_dynamic_expansion.2.2.2.2.2.2.1) 4 (by decide) (by decide) ['2'] (by decide)
    (by decide) (by decide)).1

/-- C9: rule validation rejects, with a non-empty reason, every rule whose
type is not static or dynamic, whose name strips to empty, with a step
having empty colors, an unrecognized color, an invalid operator, or an
invalid count expression, and every dynamic rule with empty or
out-of-range dynamic values. -/
theorem c9_rule_validation :
    (∀ r : RuleJson, ¬ (r.type_ = some "static" ∨ r.type_ = some "dynamic") →
      ruleRejected r)
    ∧ (∀ r : RuleJson, trimChars (r.name.getD "").data = [] → ruleRejected r)
    ∧ (∀ (r : RuleJson) (s : StepJson), (s ∈ r.trigger ∨ s ∈ r.miss) →
        s.colors.getD [] = [] → ruleRejected r)
    ∧ (∀ (r : RuleJson) (s : StepJson) (c : String), (s ∈ r.trigger ∨ s ∈ r.miss) →
        c ∈ s.colors.getD [] →
        ¬ (c = "red" ∨ c = "green" ∨ c = "yellow" ∨ c = "green_yellow") → ruleRejected r)
    ∧ (∀ (r : RuleJson) (s : StepJson), (s ∈ r.trigger ∨ s ∈ r.miss) →
        ¬ (s.operator.getD "minimum" = "exact" ∨ s.operator.getD "minimum" = "minimum"
          ∨ s.operator.getD "minimum" = "maximum") → ruleRejected r)
    ∧ (∀ (r : RuleJson) (s : StepJson), (s ∈ r.trigger ∨ s ∈ r.miss) →
        isValidCountExpr (s.count.getD (.int 1)) = false → ruleRejected r)
    ∧ (∀ r : RuleJson, r.type_ = some "dynamic" → r.dynamic_values.getD [] = [] →
        ruleRejected r)
    ∧ (∀ (r : RuleJson) (x : Int), r.type_ = some "dynamic" →
        x ∈ r.dynamic_values.getD [] → (x < 3 ∨ 8 < x) → ruleRejected r)
    ∧ validateRuleJson ⟨some "static", some "n", [⟨some ["red"], some "weird", none⟩], [],
        none⟩ = (false, some "trigger.steps contains invalid operator")
    ∧ isValidCountExpr (.str "$X") = true
    ∧ isValidCountExpr (.str "$X+2") = true
    ∧ isValidCountExpr (.str "$X-2") = true
    ∧ isValidCountExpr (.int 2) = true
    ∧ isValidCountExpr (.int 0) = false
    ∧ isValidCountExpr (.str "0") = false
    ∧ isValidCountExpr (.str "weird") = false := by
  have hrej : ∀ r : RuleJson, (validateRuleJson r).1 = true → ¬ ruleRejected r := by
    intro r h hcon
    rw [hcon.1] at h
    exact absurd h (by decide)
  have hfalse : ∀ r : RuleJson, (validateRuleJson r).1 = false → ruleRejected r := by
    intro r h
    rcases validateRuleJson_shape r with hs | ⟨msg, hs, hne⟩
    · rw [hs] at h
      exact absurd h (by decide)
    · exact ⟨by rw [hs], msg, by rw [hs], hne⟩
  have hcontra : ∀ r : RuleJson, ¬ ruleRejected r → (validateRuleJson r).1 = true := by
    intro r h
    cases hb : (validateRuleJson r).1
    · exact absurd (hfalse r hb) h
    · rfl
  have hstep : ∀ (r : RuleJson) (s : StepJson), (s ∈ r.trigger ∨ s ∈ r.miss) →
      ¬ ruleRejected r →
      s.colors.getD [] ≠ []
      ∧ (∀ c ∈ s.colors.getD [], c = "red" ∨ c = "green" ∨ c = "yellow" ∨ c = "green_yellow")
      ∧ (s.operator.getD "minimum" = "exact" ∨ s.operator.getD "minimum" = "minimum"
          ∨ s.operator.getD "minimum" = "maximum")
      ∧ isValidCountExpr (s.count.getD (.int 1)) = true := by
    intro r s hs h
    have hacc := validateRuleJson_accept_inv r (hcontra r h)
    rcases hs with hs | hs
    · exact validateSteps_accept_inv "trigger" r.trigger hacc.2.2.1 s hs
    · exact validateSteps_accept_inv "miss" r.miss hacc.2.2.2.1 s hs
  refine ⟨?_, ?_, ?_, ?_, ?_, ?_, ?_, ?_, by decide, by decide, by decide, by decide,
    by decide, by decide, by decide, by decide⟩
  · intro r h
    by_contra hc
    exact h (validateRuleJson_accept_inv r (hcontra r hc)).1
  · intro r h
    by_contra hc
    exact (validateRuleJson_accept_inv r (hcontra r hc)).2.1 h
  · intro r s hs h
    by_contra hc
    exact (hstep r s hs hc).1 h
  · intro r s c hs hcm h
    by_contra hc
    exact h ((hstep r s hs hc).2.1 c hcm)
  · intro r s hs h
    by_contra hc
    exact h (hstep r s hs hc).2.2.1
  · intro r s hs h
    by_contra hc
    rw [(hstep r s hs hc).2.2.2] at h
    exact absurd h (by decide)
  · intro r ht h
    by_contra hc
    exact ((validateRuleJson_accept_inv r (hcontra r hc)).2.2.2.2 ht).1 h
  · intro r x ht hx hrange
    by_contra hc
    have hb := ((validateRuleJson_accept_inv r (hcontra r hc)).2.2.2.2 ht).2 x hx
    omega

/-- C9 witness: a rule with an unrecognized operator is rejected with a
non-empty reason. -/
theorem c9_rule_validation_witness :
    ruleRejected ⟨some "static", some "n", [⟨some ["red"], some "weird", none⟩], [], none⟩ :=
  c9_rule_validation.2.2.2.2.1
    ⟨some "static", some "n", [⟨some ["red"], some "weird", none⟩], [], none⟩
    ⟨some ["red"], some "weird", none⟩ (Or.inl (by decide)) (by decide)

end CrashApp
